import Mathlib

/-!
Verification of the download orchestration and format-resolution core of
`ytdl.py` (a PyQt front end over the yt-dlp media engine).

The Python source is shallowly embedded: pure string manipulation is
translated to executable Lean functions over `String`/`List Char`,
the worker thread (`DownloadWorker.run` and its three mode handlers) is
translated to a function from an explicit environment — the outcomes of the
external media-engine calls, the network precheck, and the cooperative
cancellation flag — to the list of emitted Qt signals, and the
GUI-side handlers (`get_formats`, `start_download`, `update_progress`)
are translated to functions over explicit models of their inputs
(the variant catalog, the orchestrator state, the progress message).
-/

namespace Ytdl

/-! ## Python string primitives

`ytdl.py` uses `in` (substring test), `str.replace`, `str.split`,
`str.strip`, `str.startswith`, `str.lower` and `float(...)`.  They are
modelled here over `List Char` so that every proof can proceed by
structural induction.  `float` is modelled on plain decimal numerals
(optional sign, digits, optional fractional part), the only shape a
yt-dlp percent string takes, composed with `int(...)`'s truncation. -/

/-- `isPre pat s` is true when `pat` is a (character) prefix of `s`;
models `str.startswith` and is the matching step of `in`/`replace`/`split`. -/
def isPre : List Char → List Char → Bool
  | [], _ => true
  | _ :: _, [] => false
  | p :: ps, x :: xs => p == x && isPre ps xs

/-- `hasOccur pat s` is true when `pat` occurs contiguously in `s`;
models Python `pat in s`. -/
def hasOccur (pat : List Char) : List Char → Bool
  | [] => isPre pat []
  | c :: rest => isPre pat (c :: rest) || hasOccur pat rest

/-- Substring test on `String`: models Python `pat in s`. -/
def strContains (s pat : String) : Bool := hasOccur pat.data s.data

/-- Left-to-right, non-overlapping removal of every occurrence of `pat`.
The recursion is driven by `fuel`, which every caller instantiates with the
length of `s`; one character (or one whole match) is consumed per step, so
the result never depends on the fuel once `s.length ≤ fuel`. -/
def replAux (pat : List Char) : Nat → List Char → List Char
  | _, [] => []
  | 0, s => s
  | fuel + 1, c :: rest =>
    if pat ≠ [] ∧ isPre pat (c :: rest) = true then
      replAux pat fuel ((c :: rest).drop pat.length)
    else
      c :: replAux pat fuel rest

/-- Models Python `s.replace(pat, "")` for non-empty `pat`. -/
def listReplace (pat : List Char) (s : List Char) : List Char :=
  replAux pat s.length s

/-- Models Python `s.replace(pat, "")`. -/
def strReplace (s pat : String) : String := ⟨listReplace pat.data s.data⟩

/-- Splitting on a non-empty separator, left to right, non-overlapping;
models Python `s.split(sep)`.  `acc` holds the current chunk reversed;
`fuel` is instantiated with the length of the scanned list. -/
def splitAux (sep : List Char) : Nat → List Char → List Char → List (List Char)
  | _, [], acc => [acc.reverse]
  | 0, s, acc => [acc.reverse ++ s]
  | fuel + 1, c :: rest, acc =>
    if sep ≠ [] ∧ isPre sep (c :: rest) = true then
      acc.reverse :: splitAux sep fuel ((c :: rest).drop sep.length) []
    else
      splitAux sep fuel rest (c :: acc)

/-- Split of a character list on a separator. -/
def listSplit (s sep : List Char) : List (List Char) :=
  splitAux sep s.length s []

/-- Models Python `s.split(sep)`. -/
def pySplit (s sep : String) : List String :=
  (listSplit s.data sep.data).map fun l => ⟨l⟩

/-- Remove the characters satisfying `bad` from both ends. -/
def stripChars (bad : Char → Bool) (s : List Char) : List Char :=
  ((s.dropWhile bad).reverse.dropWhile bad).reverse

/-- Models Python `s.strip("%")`. -/
def stripPct (s : String) : String := ⟨stripChars (· == '%') s.data⟩

/-- Models Python `s.strip()` (whitespace). -/
def pyStrip (s : String) : String :=
  ⟨stripChars (fun c => c == ' ' || c == '\t' || c == '\n' || c == '\r') s.data⟩

/-- Numeric value of a digit string (assuming `isDigits`). -/
def digitsToNat (cs : List Char) : Nat :=
  cs.foldl (fun a c => a * 10 + (c.toNat - 48)) 0

/-- All characters are decimal digits. -/
def isDigits (cs : List Char) : Bool := cs.all (·.isDigit)

/-- Magnitude of `int(float(cs))` for an unsigned decimal numeral
`digits[.digits]` (at least one digit); `none` models `ValueError`. -/
def parseUnsignedTrunc (cs : List Char) : Option Nat :=
  match listSplit cs ['.'] with
  | [a] => if !a.isEmpty && isDigits a then some (digitsToNat a) else none
  | [a, b] =>
    if (!a.isEmpty || !b.isEmpty) && isDigits a && isDigits b then
      some (digitsToNat a)
    else none
  | _ => none

/-- Models `int(float(s))` on plain decimal numerals (truncation toward
zero); `none` models `ValueError` for a malformed numeral. -/
def pyFloatInt (s : String) : Option Int :=
  match s.data with
  | '+' :: rest => (parseUnsignedTrunc rest).map fun n => (n : Int)
  | '-' :: rest => (parseUnsignedTrunc rest).map fun n => -(n : Int)
  | rest => (parseUnsignedTrunc rest).map fun n => (n : Int)

/-! ## Variant catalog and `YTDLWindow.get_formats`

A `Variant` is one entry of the media engine's format catalog as read by
`get_formats` (ytdl.py lines 492-501).  Fields read through `dict.get`
with no default are `Option`s, `none` modelling an absent key; the format
identifier itself is taken as always present (yt-dlp always emits one).
`acodec` is never read by the code — it is carried only so that the
specification's "entry already carries audio" predicate can be stated. -/

structure Variant where
  format_id : String
  ext : Option String
  vcodec : Option String
  acodec : Option String
  height : Option Nat
  filesize : Option Nat
deriving DecidableEq

/-- `f.get('ext') == 'mp4' and f.get('vcodec') != 'none'` (line 494). -/
def videoEligible (f : Variant) : Bool :=
  f.ext == some "mp4" && f.vcodec != some "none"

/-- The spec's "entry already carries audio" predicate on a variant
(an audio codec that is neither absent nor the engine's `none` marker).
`get_formats`/`download_single` never read this field. -/
def carriesAudio (f : Variant) : Bool :=
  f.acodec != none && f.acodec != some "none"

/-- Lookup in the resolution table; keys are the heights, in bijection
with the source's `"<h>p"` labels (`int(res[:-1])` recovers the height). -/
def lookupRes (d : List (Nat × String × Nat)) (h : Nat) : Option (String × Nat) :=
  match d with
  | [] => none
  | (h', fid, fs) :: rest => if h' = h then some (fid, fs) else lookupRes rest h

/-- One `resolution_dict[res_str] = {...}` update (lines 500-501): a new
key is appended, an existing key is overwritten in place exactly when the
incoming file size is strictly larger. -/
def insertRes (d : List (Nat × String × Nat)) (h : Nat) (fid : String) (fs : Nat) :
    List (Nat × String × Nat) :=
  match d with
  | [] => [(h, fid, fs)]
  | (h', fid', fs') :: rest =>
    if h' = h then
      if fs > fs' then (h, fid, fs) :: rest else (h', fid', fs') :: rest
    else
      (h', fid', fs') :: insertRes rest h fid fs

/-- One iteration of the `for f in formats` loop (lines 493-501): an
ineligible entry, or one whose height is absent or `0` (falsy in
Python), leaves the table unchanged. -/
def resStep (d : List (Nat × String × Nat)) (f : Variant) : List (Nat × String × Nat) :=
  if videoEligible f then
    match f.height with
    | some h => if h ≠ 0 then insertRes d h f.format_id (f.filesize.getD 0) else d
    | none => d
  else d

/-- The `resolution_dict` built by the loop at lines 493-501: video-capable
mp4 entries grouped by (truthy) height, keeping per height the entry with
the largest `f.get('filesize', 0)`. -/
def resolution_dict (catalog : List Variant) : List (Nat × String × Nat) :=
  catalog.foldl resStep []

/-- Descending order on the table keys: models
`sorted(resolution_dict.keys(), key=lambda x: int(x[:-1]), reverse=True)`. -/
def resDesc (a b : Nat × String × Nat) : Prop := b.1 ≤ a.1

instance : DecidableRel resDesc := fun a b => Nat.decLe b.1 a.1

instance : IsTotal (Nat × String × Nat) resDesc :=
  ⟨fun a b => Nat.le_total b.1 a.1⟩

instance : IsTrans (Nat × String × Nat) resDesc :=
  ⟨fun _ _ _ hab hbc => le_trans hbc hab⟩

/-- The resolution table sorted by strictly descending height (keys are
distinct, so any descending sort is the source's). -/
def sortedRes (catalog : List Variant) : List (Nat × String × Nat) :=
  (resolution_dict catalog).insertionSort resDesc

/-- One row of the format combo box.  `get_formats` populates the box
with the synthetic best entry, one Video + Audio row per resolution, one
Video Only row per resolution, and a final Audio Only row; the label and
userData of each row are recovered by `entryLabel` and `entryData`. -/
inductive MenuEntry where
  | bestCombined : MenuEntry
  | videoAudio (h : Nat) (fid : String) : MenuEntry
  | videoOnly (h : Nat) (fid : String) : MenuEntry
  | audioOnly : MenuEntry
deriving DecidableEq

/-- The label column of the combo box (lines 504, 512-513, 522). -/
def entryLabel : MenuEntry → String
  | .bestCombined => "Video + Audio (Best Quality)"
  | .videoAudio h _ => s!"Video + Audio ({h}p)"
  | .videoOnly h _ => s!"Video Only ({h}p)"
  | .audioOnly => "Audio Only (Best Quality)"

/-- The userData column of the combo box — the string later handed to
`DownloadWorker` as `format_id` (lines 504, 512-513, 522). -/
def entryData : MenuEntry → String
  | .bestCombined => "best"
  | .videoAudio _ fid => fid
  | .videoOnly _ fid => fid ++ "_video_only"
  | .audioOnly => "bestaudio_audio_only"

/-- Resolution height of a menu row, when it has one. -/
def entryHeight : MenuEntry → Option Nat
  | .videoAudio h _ => some h
  | .videoOnly h _ => some h
  | _ => none

/-- `YTDLWindow.get_formats` (lines 503-522) applied to a fetched catalog:
the combo box contents after the method runs, in order. -/
def get_formats (catalog : List Variant) : List MenuEntry :=
  let s := sortedRes catalog
  MenuEntry.bestCombined ::
    (s.map (fun e => MenuEntry.videoAudio e.1 e.2.1) ++
      s.map (fun e => MenuEntry.videoOnly e.1 e.2.1) ++
      [MenuEntry.audioOnly])

/-! ## `DownloadWorker.download_single` format selection (lines 76-108) -/

/-- The `'format'` option handed to the media engine by
`download_single`, as a function of the worker's `format_id` string. -/
def format_spec (format_id : String) : String :=
  let is_audio_only := strContains format_id "audio_only"
  let is_video_only := strContains format_id "video_only"
  let base_format_id :=
    if format_id = "best" then format_id
    else strReplace (strReplace format_id "_video_only") "_audio_only"
  if is_audio_only then "bestaudio[ext=mp4]/bestaudio"
  else if is_video_only then base_format_id
  else if base_format_id = "best" then
    "bestvideo[ext=mp4]+bestaudio[ext=mp4]/best[ext=mp4]"
  else
    base_format_id ++ "+bestaudio[ext=mp4]/best[ext=mp4]"

/-- Models Python `s.lower()` (ASCII case folding suffices here). -/
def strLower (s : String) : String := ⟨s.data.map Char.toLower⟩

/-- `is_valid_url` (lines 216-221 and 532-538). -/
def is_valid_url (url : String) : Bool :=
  (isPre "http://".data url.data || isPre "https://".data url.data) &&
    (strContains (strLower url) "youtube.com" || strContains (strLower url) "youtu.be")

/-- Strictly descending list of heights, the order property claimed for
the resolution rows of the menu. -/
def strictDesc : List Nat → Bool
  | [] => true
  | [_] => true
  | a :: b :: rest => b < a && strictDesc (b :: rest)

/-! ## `DownloadWorker` (lines 14-221)

The worker thread is embedded as a function from an environment — the
results of the external calls it makes — to the ordered list of effects
it produces.  An effect is either a Qt signal emission (`progress` or
`finished`) or an invocation of the media engine (`extract_info` probe /
`download` fetch); the item-announcing progress emission of the batch
loop is kept structured (`itemStart`) so that per-item ordering can be
stated.  Cancellation (`stop`, lines 49-51) is modelled by the number of
completed batch iterations after which `_running` reads false. -/

/-- The outcome of one guarded media-engine call, by the exception class
the surrounding `try` distinguishes: success, `yt_dlp.utils.DownloadError`,
`PermissionError`, or any other exception. -/
inductive EngineOutcome where
  | ok : EngineOutcome
  | downloadError (msg : String) : EngineOutcome
  | permError (msg : String) : EngineOutcome
  | otherError (msg : String) : EngineOutcome
deriving DecidableEq

/-- The outcome classes the batch loop's per-item handler absorbs:
success or `DownloadError` (any other exception escapes to the outer
handler of `download_list`). -/
def benignB : EngineOutcome → Bool
  | .ok => true
  | .downloadError _ => true
  | _ => false

/-- Environment of a single-URL (or playlist) job: the title the probe
would report, the probe's outcome, and the fetch's outcome. -/
structure SingleJob where
  title : String
  probe : EngineOutcome
  fetch : EngineOutcome
deriving DecidableEq

/-- One observable step of a worker run. -/
inductive Ev where
  | prog (msg : String) : Ev
  | itemStart (i : Nat) (n : Nat) (url : String) : Ev
  | engineProbe : Ev
  | engineFetch : Ev
  | finished (success : Bool) : Ev
deriving DecidableEq

/-- The three `except` arms shared by `download_single` (lines 117-125):
the message prefix differs per handler but each emits one progress
message and `finished(False)`. -/
def singleFail : EngineOutcome → List Ev
  | .ok => []
  | .downloadError m =>
    [.prog s!"Download failed: {m}. Please check the URL or your internet connection.",
     .finished false]
  | .permError m =>
    [.prog s!"Permission denied: {m}. Please ensure you have write access to the save location.",
     .finished false]
  | .otherError m =>
    [.prog s!"Unexpected error during download: {m}. Please try again.",
     .finished false]

/-- `DownloadWorker.download_single` (lines 74-125). -/
def download_single (format_id : String) (job : SingleJob) : List Ev :=
  let branch :=
    if strContains format_id "audio_only" then "Downloading audio only..."
    else if strContains format_id "video_only" then "Downloading video only (no audio)..."
    else "Downloading video and audio together..."
  let title := job.title
  Ev.prog branch :: Ev.engineProbe ::
    match job.probe with
    | .ok =>
      Ev.prog s!"Starting download for: {title}" :: Ev.engineFetch ::
        (match job.fetch with
         | .ok => [Ev.finished true]
         | e => singleFail e)
    | e => singleFail e

/-- The `except` arms of `download_playlist` (lines 181-189). -/
def playlistFail : EngineOutcome → List Ev
  | .ok => []
  | .downloadError m =>
    [.prog s!"Playlist download failed: {m}. Please check the URL or your internet connection.",
     .finished false]
  | .permError m =>
    [.prog s!"Permission denied: {m}. Please ensure you have write access to the save location.",
     .finished false]
  | .otherError m =>
    [.prog s!"Unexpected error during playlist download: {m}. Please try again.",
     .finished false]

/-- `DownloadWorker.download_playlist` (lines 165-189). -/
def download_playlist (job : SingleJob) : List Ev :=
  let title := job.title
  Ev.engineProbe ::
    match job.probe with
    | .ok =>
      Ev.prog s!"Starting download for playlist: {title}" :: Ev.engineFetch ::
        (match job.fetch with
         | .ok => [Ev.finished true]
         | e => playlistFail e)
    | e => playlistFail e

/-- Has the cooperative `_running` flag turned false before iteration `i`
(1-based)?  `stop = some k` means `stop()` was observed after `k`
completed iterations; `none` means no cancellation. -/
def stopped (stop : Option Nat) (i : Nat) : Bool :=
  match stop with
  | none => false
  | some k => k < i

/-- The `for i, url in enumerate(urls, 1)` loop of `download_list`
(lines 146-155).  Returns the effects of the loop together with either
the final `success` flag (loop ran to completion or hit `break`) or the
message of an exception that escapes the per-item handler. -/
def listLoop (n : Nat) (stop : Option Nat) :
    List (String × EngineOutcome) → Nat → Bool → List Ev × Except String Bool
  | [], _, success => ([], .ok success)
  | (url, o) :: rest, i, success =>
    if stopped stop i then ([], .ok success)
    else
      match o with
      | .ok =>
        let r := listLoop n stop rest (i + 1) success
        (Ev.itemStart i n url :: Ev.engineFetch :: r.1, r.2)
      | .downloadError m =>
        let r := listLoop n stop rest (i + 1) false
        (Ev.itemStart i n url :: Ev.engineFetch ::
          Ev.prog s!"Failed to download {url}: {m}. Skipping to the next URL..." :: r.1, r.2)
      | .permError m =>
        ([Ev.itemStart i n url, Ev.engineFetch], .error s!"Permission denied: {m}")
      | .otherError m =>
        ([Ev.itemStart i n url, Ev.engineFetch], .error m)

/-- `DownloadWorker.download_list` (lines 127-163), applied to the
already-read URL list paired with each item's engine outcome.  Reading
the URL file is external I/O; its result (the filtered URL list) is part
of the environment. -/
def download_list (items : List (String × EngineOutcome)) (stop : Option Nat) : List Ev :=
  if items.isEmpty then
    [.prog "No valid URLs found in the file. Please check the file and try again.",
     .finished false]
  else
    let n := items.length
    Ev.prog s!"Found {n} URLs in the file. Starting batch download..." ::
      match listLoop n stop items 1 true with
      | (evs, .ok success) =>
        evs ++
          [.prog (if success then "All videos in the list downloaded successfully!"
                  else "Some videos failed to download. Check the log for details."),
           .finished success]
      | (evs, .error m) =>
        evs ++ [.prog s!"Error during batch download: {m}. Please try again.",
                .finished false]

/-- Environment of one `DownloadWorker.run` call: the network precheck
result, the worker's constructor arguments that steer control flow, and
the outcomes of the engine calls each mode would make. -/
structure WorkerEnv where
  networkOk : Bool
  mode : String
  format_id : String
  single : SingleJob
  items : List (String × EngineOutcome)
  stop : Option Nat
  playlist : SingleJob
deriving DecidableEq

/-- `DownloadWorker.run` (lines 27-47).  The three mode handlers catch
all their own exceptions, so the outer handler fires only for the
`ValueError` raised on an invalid mode; the network precheck failure
emits once and returns. -/
def worker_run (env : WorkerEnv) : List Ev :=
  if !env.networkOk then
    [.prog "No internet connection detected. Please check your connection and try again.",
     .finished false]
  else if env.mode = "single" then download_single env.format_id env.single
  else if env.mode = "list" then download_list env.items env.stop
  else if env.mode = "playlist" then download_playlist env.playlist
  else
    [.prog "Unexpected error occurred: Invalid download mode. Please try again or contact support.",
     .finished false]

/-- The values carried by the `finished` signals of a run, in order. -/
def finishedVals (evs : List Ev) : List Bool :=
  evs.filterMap fun e =>
    match e with
    | .finished b => some b
    | _ => none

/-- The (1-based) indices of the item-started announcements of a run. -/
def itemStartIdx (evs : List Ev) : List Nat :=
  evs.filterMap fun e =>
    match e with
    | .itemStart i _ _ => some i
    | _ => none

/-- Number of media-engine fetch invocations in a run. -/
def fetchCount (evs : List Ev) : Nat :=
  (evs.filter fun e => e == Ev.engineFetch).length

/-! ## `YTDLWindow.start_download` — the Orchestrator (lines 564-593) -/

/-- Result of a start request.  The source communicates these outcomes as
log lines and an early `return`; what matters is which arm runs and
whether a new `DownloadWorker` is constructed. -/
inductive StartResult where
  | rejectedBusy : StartResult
  | invalidRef : StartResult
  | invalidFile : StartResult
  | invalidDest : StartResult
  | started : StartResult
deriving DecidableEq

/-- The orchestrator state: `self.worker`, `none` when no worker object
exists, `some b` when one exists with `isRunning() = b`. -/
def OrchState := Option Bool

/-- `YTDLWindow.start_download` (lines 564-593).  `isFile` and `isDir`
stand for `os.path.isfile` / `os.path.isdir` on the current file system.
Returns the new orchestrator state and the outcome; a worker is
constructed and started only in the `started` arm. -/
def start_download (worker : Option Bool) (mode url_or_file save_location : String)
    (isFile : String → Bool) (isDir : String → Bool) : Option Bool × StartResult :=
  if worker.getD false then (worker, .rejectedBusy)
  else if mode = "single" && !is_valid_url url_or_file then (worker, .invalidRef)
  else if mode = "list" && (url_or_file == "" || !isFile url_or_file) then
    (worker, .invalidFile)
  else if mode = "playlist" && !is_valid_url url_or_file then (worker, .invalidRef)
  else if save_location == "" || !isDir save_location then (worker, .invalidDest)
  else (some true, .started)

/-! ## Progress aggregation (lines 60-72 and 618-639) -/

/-- The message `progress_hook` emits for a downloading sample with the
given (already `.strip()`-ed) percent, speed and eta fields (line 68). -/
def hookMsg (percent speed eta : String) : String :=
  "Downloading: " ++ percent ++ " - Speed: " ++ speed ++ " - ETA: " ++ eta

/-- What `update_progress` does with one message: either it forwards a
value to the progress bar (`setValue`) and logs, or it only logs.  The
method wraps its whole body in `try/except` and every arm ends in
`append_log`, so these two actions are exhaustive. -/
inductive ProgAction where
  | setBar (v : Int) (logged : String) : ProgAction
  | logOnly (logged : String) : ProgAction
deriving DecidableEq

/-- `YTDLWindow.update_progress` (lines 618-639).  `parts` is never
empty (`str.split` returns at least one chunk), so the
`len(parts) >= 1` test always passes; a missing `": "` separator makes
`parts[0].split(": ")[1]` raise `IndexError`, caught by the outer
handler.  A `float` failure is caught by the inner `except ValueError`. -/
def update_progress (message : String) : ProgAction :=
  if strContains message "Downloading:" then
    let parts := pySplit message " - "
    if decide (1 ≤ parts.length) then
      match (pySplit (parts.headD "") ": ").get? 1 with
      | some piece =>
        let percent_str := stripPct piece
        match pyFloatInt percent_str with
        | some percent => .setBar percent message
        | none =>
          .logOnly ("Error parsing percentage " ++ percent_str ++
            ": could not convert string to float")
      | none =>
        .logOnly "Unexpected progress update error: list index out of range. Please try again."
    else .logOnly ("Unexpected progress message format: " ++ message)
  else if strContains message "Download completed" then .setBar 100 message
  else .logOnly message

/-- `DownloadWorker.progress_hook` (lines 60-72) over a model of the
yt-dlp status dictionary: `none` fields model absent keys.  The returned
value is the emitted progress message, `none` when nothing is emitted. -/
structure HookSample where
  status : Option String
  percentStr : Option String
  speedStr : Option String
  etaStr : Option String
deriving DecidableEq

/-- `progress_hook` proper: a missing `'status'` key raises `KeyError`,
which the handler converts into an error message emission; an inactive
worker emits nothing. -/
def progress_hook (running : Bool) (save_location : String) (d : HookSample) :
    Option String :=
  if !running then none
  else
    match d.status with
    | none => some "Progress update error: Missing key status. Please try again."
    | some st =>
      if st = "downloading" then
        some (hookMsg (pyStrip (d.percentStr.getD "0%")) (pyStrip (d.speedStr.getD "N/A"))
          (pyStrip (d.etaStr.getD "N/A")))
      else if st = "finished" then
        some ("Download completed successfully! File saved to: " ++ save_location)
      else none

/-! ## Concrete instances

Small concrete catalogs and environments at which the universal claims
are instantiated or refuted. -/

/-- 1080p mp4 video-only variant, id 137, 500 bytes. -/
def v137 : Variant := ⟨"137", some "mp4", some "avc1", some "none", some 1080, some 500⟩

/-- A second 1080p mp4 video-only variant, id 137b, only 300 bytes. -/
def v137b : Variant := ⟨"137b", some "mp4", some "avc1", some "none", some 1080, some 300⟩

/-- 720p mp4 variant with audio, id 136, 200 bytes. -/
def v136 : Variant := ⟨"136", some "mp4", some "avc1", some "mp4a", some 720, some 200⟩

/-- 720p mp4 variant that already carries audio, id 22. -/
def v22 : Variant := ⟨"22", some "mp4", some "avc1", some "mp4a.40.2", some 720, some 100⟩

/-- Audio-only mp4 variant (no video codec), id 140, 128 bytes — the
entry the specification's fallback-audio selection would pick. -/
def a140 : Variant := ⟨"140", some "mp4", some "none", some "mp4a.40.2", none, some 128⟩

/-- A catalog with one audio-less video entry and one audio-only entry. -/
def catC3 : List Variant := [v137, a140]

/-- A catalog with two distinct resolutions. -/
def catTwoRes : List Variant := [v137, v136]

/-- A catalog with two 1080p encodings of different sizes. -/
def catDup : List Variant := [v137b, v136, v137]

/-- A single-URL environment whose only engine fetch fails with the
retryable (network/timeout) `DownloadError` class. -/
def envTimeout : WorkerEnv :=
  { networkOk := true
    mode := "single"
    format_id := "best"
    single := ⟨"Some Title", .ok, .downloadError "timeout"⟩
    items := []
    stop := none
    playlist := ⟨"", .ok, .ok⟩ }

/-- A two-item batch in which both items would succeed. -/
def itemsBothOk : List (String × EngineOutcome) :=
  [("https://youtu.be/a", .ok), ("https://youtu.be/b", .ok)]

/-- A two-item batch whose second item fails with `DownloadError`. -/
def itemsOneFail : List (String × EngineOutcome) :=
  [("https://youtu.be/a", .ok), ("https://youtu.be/b", .downloadError "net")]

/-- A two-item batch whose first item fails with `PermissionError` — an
engine failure class the per-item handler does not absorb. -/
def itemsPermFail : List (String × EngineOutcome) :=
  [("https://youtu.be/a", .permError "denied"), ("https://youtu.be/b", .ok)]

/-- The out-of-range progress message used to refute clamping. -/
def msg150 : String := "Downloading: 150.0% - Speed: 1.0MiB/s - ETA: 00:01"

/-! ## Worker lemmas -/

@[simp] theorem finishedVals_nil : finishedVals [] = [] := rfl

@[simp] theorem finishedVals_cons_prog (m : String) (l : List Ev) :
    finishedVals (Ev.prog m :: l) = finishedVals l := rfl

@[simp] theorem finishedVals_cons_item (i n : Nat) (u : String) (l : List Ev) :
    finishedVals (Ev.itemStart i n u :: l) = finishedVals l := rfl

@[simp] theorem finishedVals_cons_probe (l : List Ev) :
    finishedVals (Ev.engineProbe :: l) = finishedVals l := rfl

@[simp] theorem finishedVals_cons_fetch (l : List Ev) :
    finishedVals (Ev.engineFetch :: l) = finishedVals l := rfl

@[simp] theorem finishedVals_cons_finished (b : Bool) (l : List Ev) :
    finishedVals (Ev.finished b :: l) = b :: finishedVals l := rfl

@[simp] theorem finishedVals_append (l1 l2 : List Ev) :
    finishedVals (l1 ++ l2) = finishedVals l1 ++ finishedVals l2 := by
  simp [finishedVals]

@[simp] theorem itemStartIdx_nil : itemStartIdx [] = [] := rfl

@[simp] theorem itemStartIdx_cons_prog (m : String) (l : List Ev) :
    itemStartIdx (Ev.prog m :: l) = itemStartIdx l := rfl

@[simp] theorem itemStartIdx_cons_item (i n : Nat) (u : String) (l : List Ev) :
    itemStartIdx (Ev.itemStart i n u :: l) = i :: itemStartIdx l := rfl

@[simp] theorem itemStartIdx_cons_probe (l : List Ev) :
    itemStartIdx (Ev.engineProbe :: l) = itemStartIdx l := rfl

@[simp] theorem itemStartIdx_cons_fetch (l : List Ev) :
    itemStartIdx (Ev.engineFetch :: l) = itemStartIdx l := rfl

@[simp] theorem itemStartIdx_cons_finished (b : Bool) (l : List Ev) :
    itemStartIdx (Ev.finished b :: l) = itemStartIdx l := rfl

@[simp] theorem itemStartIdx_append (l1 l2 : List Ev) :
    itemStartIdx (l1 ++ l2) = itemStartIdx l1 ++ itemStartIdx l2 := by
  simp [itemStartIdx]

theorem finishedVals_singleFail (e : EngineOutcome) (he : e ≠ .ok) :
    finishedVals (singleFail e) = [false] := by
  cases e with
  | ok => exact absurd rfl he
  | downloadError m => rfl
  | permError m => rfl
  | otherError m => rfl

theorem finishedVals_playlistFail (e : EngineOutcome) (he : e ≠ .ok) :
    finishedVals (playlistFail e) = [false] := by
  cases e with
  | ok => exact absurd rfl he
  | downloadError m => rfl
  | permError m => rfl
  | otherError m => rfl

theorem len_finished_single (fmt : String) (job : SingleJob) :
    (finishedVals (download_single fmt job)).length = 1 := by
  cases hp : job.probe <;> cases hf : job.fetch <;>
    simp [download_single, singleFail, hp, hf]

theorem len_finished_playlist (job : SingleJob) :
    (finishedVals (download_playlist job)).length = 1 := by
  cases hp : job.probe <;> cases hf : job.fetch <;>
    simp [download_playlist, playlistFail, hp, hf]

theorem listLoop_no_finished (n : Nat) (stop : Option Nat) :
    ∀ (items : List (String × EngineOutcome)) (i : Nat) (success : Bool),
    finishedVals (listLoop n stop items i success).1 = [] := by
  intro items
  induction items with
  | nil => intro i success; simp [listLoop]
  | cons p rest ih =>
    intro i success
    obtain ⟨url, o⟩ := p
    by_cases hs : stopped stop i = true
    · simp [listLoop, hs]
    · rw [Bool.not_eq_true] at hs
      cases o <;> simp [listLoop, hs, ih]

theorem len_finished_list (items : List (String × EngineOutcome)) (stop : Option Nat) :
    (finishedVals (download_list items stop)).length = 1 := by
  by_cases hne : items = []
  · subst hne; simp [download_list]
  · rcases hl : listLoop items.length stop items 1 true with ⟨evs, r⟩
    have hnf : finishedVals evs = [] := by
      have h := listLoop_no_finished items.length stop items 1 true
      rw [hl] at h
      exact h
    cases r with
    | ok success => simp [download_list, hne, hl, hnf]
    | error m => simp [download_list, hne, hl, hnf]

theorem listLoop_benign (n : Nat) :
    ∀ (items : List (String × EngineOutcome)) (i : Nat) (success : Bool),
    (∀ p ∈ items, benignB p.2 = true) →
    itemStartIdx (listLoop n none items i success).1 = List.range' i items.length ∧
    (listLoop n none items i success).2 =
      .ok (success && items.all fun p => p.2 == EngineOutcome.ok) := by
  intro items
  induction items with
  | nil => intro i success _; simp [listLoop]
  | cons p rest ih =>
    intro i success hben
    obtain ⟨url, o⟩ := p
    have hbrest : ∀ p ∈ rest, benignB p.2 = true := fun p hp => hben p (by simp [hp])
    have hbo : benignB o = true := hben (url, o) (by simp)
    cases o with
    | ok =>
      have h1 := ih (i + 1) success hbrest
      simp [listLoop, stopped, List.range'_succ, h1.1, h1.2, List.all_cons]
    | downloadError m =>
      have h1 := ih (i + 1) false hbrest
      simp [listLoop, stopped, List.range'_succ, h1.1, h1.2, List.all_cons]
    | permError m => simp [benignB] at hbo
    | otherError m => simp [benignB] at hbo

theorem listLoop_cancel (n k : Nat) :
    ∀ (items : List (String × EngineOutcome)) (i : Nat) (success : Bool),
    (∀ p ∈ items, benignB p.2 = true) →
    itemStartIdx (listLoop n (some k) items i success).1 =
      List.range' i (min (k + 1 - i) items.length) ∧
    (listLoop n (some k) items i success).2 =
      .ok (success && (items.take (k + 1 - i)).all fun p => p.2 == EngineOutcome.ok) := by
  intro items
  induction items with
  | nil => intro i success _; simp [listLoop]
  | cons p rest ih =>
    intro i success hben
    obtain ⟨url, o⟩ := p
    have hbrest : ∀ p ∈ rest, benignB p.2 = true := fun p hp => hben p (by simp [hp])
    have hbo : benignB o = true := hben (url, o) (by simp)
    by_cases hki : k < i
    · have ht : k + 1 - i = 0 := by omega
      have hst : stopped (some k) i = true := by simp [stopped, hki]
      simp [listLoop, hst, ht]
    · have hst : stopped (some k) i = false := by simp [stopped, hki]
      have hmin : min (k + 1 - i) (rest.length + 1) = min (k - i) rest.length + 1 := by
        omega
      have htake : k + 1 - i = (k - i) + 1 := by omega
      cases o with
      | ok =>
        have h1 := ih (i + 1) success hbrest
        have ht' : k + 1 - (i + 1) = k - i := by omega
        rw [ht'] at h1
        refine ⟨?_, ?_⟩
        · simp only [listLoop, hst, Bool.false_eq_true, if_false, List.length_cons,
            hmin, List.range'_succ]
          simp [h1.1]
        · simp only [listLoop, hst, Bool.false_eq_true, if_false, htake,
            List.take_succ_cons, List.all_cons]
          simp [h1.2]
      | downloadError m =>
        have h1 := ih (i + 1) false hbrest
        have ht' : k + 1 - (i + 1) = k - i := by omega
        rw [ht'] at h1
        refine ⟨?_, ?_⟩
        · simp only [listLoop, hst, Bool.false_eq_true, if_false, List.length_cons,
            hmin, List.range'_succ]
          simp [h1.1]
        · simp only [listLoop, hst, Bool.false_eq_true, if_false, htake,
            List.take_succ_cons, List.all_cons]
          simp [h1.2]
      | permError m => simp [benignB] at hbo
      | otherError m => simp [benignB] at hbo

/-! ## Claims about the worker and the orchestrator -/

/-- C10: for every download mode (single, list, playlist, or an invalid
mode string) and every outcome (success, per-item failures, empty URL
list, failed network precheck, raised exception, or cancellation), one
run of the download worker emits exactly one terminal `finished(bool)`
signal. -/
theorem claim_c10_one_terminal_signal (env : WorkerEnv) :
    (finishedVals (worker_run env)).length = 1 := by
  unfold worker_run
  by_cases hn : env.networkOk = true
  · rw [if_neg (by simp [hn])]
    by_cases h1 : env.mode = "single"
    · rw [if_pos h1]; exact len_finished_single _ _
    · rw [if_neg h1]
      by_cases h2 : env.mode = "list"
      · rw [if_pos h2]; exact len_finished_list _ _
      · rw [if_neg h2]
        by_cases h3 : env.mode = "playlist"
        · rw [if_pos h3]; exact len_finished_playlist _
        · rw [if_neg h3]; rfl
  · rw [Bool.not_eq_true] at hn
    rw [if_pos (by simp [hn])]; rfl

/-- C4 counterexample: a single-URL run whose engine fetch fails with the
retryable (network/timeout) `DownloadError` class performs exactly one
fetch invocation and terminates immediately with `finished(False)`; the
engine is never re-invoked, refuting the claimed retry loop with
`maxAttempts` invocations separated by a back-off delay. -/
theorem claim_c4_counterexample :
    fetchCount (worker_run envTimeout) = 1 ∧
    finishedVals (worker_run envTimeout) = [false] ∧
    ¬ 2 ≤ fetchCount (worker_run envTimeout) := by
  refine ⟨by decide, by decide, by decide⟩

/-- C4 amended: a retryable (network/timeout) engine failure during a
single-URL job is not retried at all — the worker performs exactly one
engine fetch invocation and ends with a single `finished(False)` signal;
there is no attempt counter and no back-off delay. -/
theorem claim_c4_no_retry (env : WorkerEnv) (m : String)
    (hn : env.networkOk = true) (hm : env.mode = "single")
    (hp : env.single.probe = .ok) (hf : env.single.fetch = .downloadError m) :
    fetchCount (worker_run env) = 1 ∧ finishedVals (worker_run env) = [false] := by
  have hrun : worker_run env = download_single env.format_id env.single := by
    unfold worker_run
    rw [if_neg (by simp [hn]), if_pos hm]
  rw [hrun]
  unfold download_single
  rw [hp, hf]
  constructor
  · simp [fetchCount, singleFail]
  · rfl

/-- Witness for `claim_c4_no_retry` at the concrete environment
`envTimeout`. -/
theorem claim_c4_no_retry_witness :
    envTimeout.networkOk = true ∧ envTimeout.mode = "single" ∧
    envTimeout.single.probe = .ok ∧
    envTimeout.single.fetch = .downloadError "timeout" ∧
    (fetchCount (worker_run envTimeout) = 1 ∧
      finishedVals (worker_run envTimeout) = [false]) :=
  ⟨rfl, rfl, rfl, rfl, claim_c4_no_retry envTimeout "timeout" rfl rfl rfl rfl⟩

/-- C5 counterexample: a per-item engine failure can abort the batch
early.  In the two-item batch whose first item fails with
`PermissionError` — a non-retryable engine failure per the
specification's own error taxonomy — the exception escapes the per-item
`except DownloadError` handler (line 153) to the outer handler
(line 161): only item 1 is ever started, item 2 is never attempted, and
the run terminates with `finished(False)` — refuting "a per-item engine
failure never aborts the batch early; every remaining item is still
attempted". -/
theorem claim_c5_counterexample :
    itemsPermFail.length = 2 ∧
    itemStartIdx (download_list itemsPermFail none) = [1] ∧
    2 ∉ itemStartIdx (download_list itemsPermFail none) ∧
    finishedVals (download_list itemsPermFail none) = [false] := by
  refine ⟨by decide, by decide, by decide, by decide⟩

/-- C5 amended: for every list-batch job with a non-empty URL list, no
cancellation, and per-item outcomes limited to success or the engine's
`DownloadError` class — the only failure class the per-item handler
absorbs — every item is attempted (the item-start announcements are
exactly `1, 2, …, n`) and the single terminal result is the logical AND
of the per-item results.  A per-item failure of any other class
(permission or unexpected exceptions) instead escapes the per-item
handler and aborts the batch (see the counterexample). -/
theorem claim_c5_batch_conjunction (items : List (String × EngineOutcome))
    (hne : items ≠ []) (hben : ∀ p ∈ items, benignB p.2 = true) :
    itemStartIdx (download_list items none) = List.range' 1 items.length ∧
    finishedVals (download_list items none) =
      [items.all fun p => p.2 == EngineOutcome.ok] := by
  rcases hl : listLoop items.length none items 1 true with ⟨evs, r⟩
  have h := listLoop_benign items.length items 1 true hben
  rw [hl] at h
  obtain ⟨hidx, hr⟩ := h
  simp only [Bool.true_and] at hr
  subst hr
  have hnf : finishedVals evs = [] := by
    have h2 := listLoop_no_finished items.length none items 1 true
    rw [hl] at h2
    exact h2
  constructor
  · simp [download_list, hne, hl, hidx]
  · simp [download_list, hne, hl, hnf]

/-- Witness for `claim_c5_batch_conjunction`: a two-item batch whose
second item fails still attempts both items and terminates `false`. -/
theorem claim_c5_batch_conjunction_witness :
    itemsOneFail ≠ [] ∧ (∀ p ∈ itemsOneFail, benignB p.2 = true) ∧
    (itemStartIdx (download_list itemsOneFail none) =
        List.range' 1 itemsOneFail.length ∧
      finishedVals (download_list itemsOneFail none) =
        [itemsOneFail.all fun p => p.2 == EngineOutcome.ok]) :=
  ⟨by decide, by decide, claim_c5_batch_conjunction itemsOneFail (by decide) (by decide)⟩

/-- C6 counterexample: cancelling a two-item batch after item 1 emits no
item-start after the cancellation point — but the terminal result is
`true` (the AND of the items attempted so far), not the claimed `false`. -/
theorem claim_c6_counterexample :
    itemStartIdx (download_list itemsBothOk (some 1)) = [1] ∧
    finishedVals (download_list itemsBothOk (some 1)) = [true] := by
  refine ⟨by decide, by decide⟩

/-- C6 amended: cancelling a list-batch after `k` of `n` items (`k < n`,
per-item outcomes success or `DownloadError`) emits the item-start
announcements `1, …, k` only — none after the cancellation point — and
the single terminal result is the AND of the results of the first `k`
items (hence not necessarily `false`). -/
theorem claim_c6_cancel_no_further_items (items : List (String × EngineOutcome))
    (k : Nat) (hk : k < items.length) (hben : ∀ p ∈ items, benignB p.2 = true) :
    itemStartIdx (download_list items (some k)) = List.range' 1 k ∧
    (∀ i ∈ itemStartIdx (download_list items (some k)), i ≤ k) ∧
    finishedVals (download_list items (some k)) =
      [(items.take k).all fun p => p.2 == EngineOutcome.ok] := by
  have hne : items ≠ [] := by
    intro h
    subst h
    simp at hk
  rcases hl : listLoop items.length (some k) items 1 true with ⟨evs, r⟩
  have h := listLoop_cancel items.length k items 1 true hben
  rw [hl] at h
  obtain ⟨hidx, hr⟩ := h
  have e1 : k + 1 - 1 = k := by omega
  have e2 : min k items.length = k := by omega
  rw [e1, e2] at hidx
  rw [e1] at hr
  simp only [Bool.true_and] at hr
  subst hr
  have hnf : finishedVals evs = [] := by
    have h2 := listLoop_no_finished items.length (some k) items 1 true
    rw [hl] at h2
    exact h2
  refine ⟨?_, ?_, ?_⟩
  · simp [download_list, hne, hl, hidx]
  · intro i hi
    simp only [download_list, hne, hl] at hi
    rw [if_neg (by simp [hne])] at hi
    simp [hidx] at hi
    omega
  · simp [download_list, hne, hl, hnf]

/-- Witness for `claim_c6_cancel_no_further_items` at the concrete
two-item batch cancelled after one item. -/
theorem claim_c6_cancel_no_further_items_witness :
    1 < itemsBothOk.length ∧ (∀ p ∈ itemsBothOk, benignB p.2 = true) ∧
    (itemStartIdx (download_list itemsBothOk (some 1)) = List.range' 1 1 ∧
      (∀ i ∈ itemStartIdx (download_list itemsBothOk (some 1)), i ≤ 1) ∧
      finishedVals (download_list itemsBothOk (some 1)) =
        [(itemsBothOk.take 1).all fun p => p.2 == EngineOutcome.ok]) :=
  ⟨by decide, by decide,
    claim_c6_cancel_no_further_items itemsBothOk 1 (by decide) (by decide)⟩

/-- C7: when a worker object exists and reports `isRunning()`, a start
request returns immediately with the busy rejection: the orchestrator
state is unchanged and no new worker is constructed (construction happens
only in the `started` arm), so at most one job is in flight. -/
theorem claim_c7_busy_start_rejected (worker : Option Bool)
    (mode url_or_file save_location : String) (isFile isDir : String → Bool)
    (h : worker = some true) :
    start_download worker mode url_or_file save_location isFile isDir =
      (worker, StartResult.rejectedBusy) := by
  subst h
  simp [start_download]

/-- Witness for `claim_c7_busy_start_rejected` at a concrete busy state. -/
theorem claim_c7_busy_start_rejected_witness :
    (some true : Option Bool) = some true ∧
    start_download (some true) "single" "https://youtu.be/x" "/tmp"
        (fun _ => true) (fun _ => true) = (some true, StartResult.rejectedBusy) :=
  ⟨rfl, claim_c7_busy_start_rejected (some true) "single" "https://youtu.be/x" "/tmp"
    (fun _ => true) (fun _ => true) rfl⟩

/-- C9 counterexample: with a valid URL and the non-empty destination
`/downloads` that is not an existing directory, `start_download` rejects
with the invalid-destination arm — no directory is ever created — so the
claim that a missing destination directory is created (and that
validation fails only for lack of write permission) is false. -/
theorem claim_c9_counterexample :
    (start_download none "single" "https://youtube.com/watch" "/downloads"
        (fun _ => false) (fun _ => false)).2 = StartResult.invalidDest ∧
    ¬ (∀ isDir : String → Bool,
        (start_download none "single" "https://youtube.com/watch" "/downloads"
          (fun _ => false) isDir).2 ≠ StartResult.invalidDest) := by
  refine ⟨by decide, fun hall => hall (fun _ => false) (by decide)⟩

/-- C9 amended: destination validation merely tests that the path is a
non-empty string naming an existing directory; it neither resolves the
path, creates a missing directory, nor checks writability (the check is
read-only, hence trivially safe to repeat; permission failures surface
later as `PermissionError` during the download itself). -/
theorem claim_c9_dest_check_is_isdir (url save_location : String)
    (isFile isDir : String → Bool) (hu : is_valid_url url = true) :
    start_download none "single" url save_location isFile isDir =
      if save_location ≠ "" ∧ isDir save_location = true then
        (some true, StartResult.started)
      else (none, StartResult.invalidDest) := by
  by_cases h1 : save_location = "" <;> by_cases h2 : isDir save_location = true <;>
    simp [start_download, hu, h1, h2]

/-- Witness for `claim_c9_dest_check_is_isdir` at a concrete valid URL
and an existing destination directory. -/
theorem claim_c9_dest_check_is_isdir_witness :
    is_valid_url "https://youtube.com/watch" = true ∧
    start_download none "single" "https://youtube.com/watch" "/tmp"
        (fun _ => false) (fun _ => true) =
      if ("/tmp" : String) ≠ "" ∧ (fun (_ : String) => true) "/tmp" = true then
        (some true, StartResult.started)
      else (none, StartResult.invalidDest) :=
  ⟨by decide, claim_c9_dest_check_is_isdir "https://youtube.com/watch" "/tmp"
    (fun _ => false) (fun _ => true) (by decide)⟩

/-! ## Resolution-table lemmas -/

theorem lookupRes_insert_self (d : List (Nat × String × Nat)) (h : Nat)
    (fid : String) (fs : Nat) :
    lookupRes (insertRes d h fid fs) h =
      some (match lookupRes d h with
            | none => (fid, fs)
            | some (f0, s0) => if fs > s0 then (fid, fs) else (f0, s0)) := by
  induction d with
  | nil => simp [insertRes, lookupRes]
  | cons e rest ih =>
    obtain ⟨h', f', s'⟩ := e
    by_cases he : h' = h
    · subst he
      by_cases hgt : fs > s' <;> simp [insertRes, lookupRes, hgt]
    · simp [insertRes, lookupRes, he, ih]

theorem lookupRes_insert_other (d : List (Nat × String × Nat)) (h h' : Nat)
    (fid : String) (fs : Nat) (hne : h' ≠ h) :
    lookupRes (insertRes d h fid fs) h' = lookupRes d h' := by
  induction d with
  | nil => simp [insertRes, lookupRes, Ne.symm hne]
  | cons e rest ih =>
    obtain ⟨h0, f0, s0⟩ := e
    by_cases he : h0 = h
    · subst he
      by_cases hgt : fs > s0 <;> simp [insertRes, lookupRes, hgt, hne, Ne.symm hne]
    · simp [insertRes, lookupRes, he, ih]

theorem mem_keys_insertRes (d : List (Nat × String × Nat)) (h : Nat)
    (fid : String) (fs : Nat) (x : Nat) :
    x ∈ (insertRes d h fid fs).map (·.1) ↔ x ∈ d.map (·.1) ∨ x = h := by
  induction d with
  | nil => simp [insertRes]
  | cons e rest ih =>
    obtain ⟨h0, f0, s0⟩ := e
    by_cases he : h0 = h
    · subst he
      by_cases hgt : fs > s0
      · rw [show insertRes ((h0, f0, s0) :: rest) h0 fid fs = (h0, fid, fs) :: rest by
            simp [insertRes, hgt]]
        simp only [List.map_cons, List.mem_cons]
        tauto
      · rw [show insertRes ((h0, f0, s0) :: rest) h0 fid fs = (h0, f0, s0) :: rest by
            simp [insertRes, hgt]]
        simp only [List.map_cons, List.mem_cons]
        tauto
    · simp only [insertRes, if_neg he, List.map_cons, List.mem_cons, ih]
      tauto

theorem nodup_keys_insertRes (d : List (Nat × String × Nat)) (h : Nat)
    (fid : String) (fs : Nat) (hd : (d.map (·.1)).Nodup) :
    ((insertRes d h fid fs).map (·.1)).Nodup := by
  induction d with
  | nil => simp [insertRes]
  | cons e rest ih =>
    obtain ⟨h0, f0, s0⟩ := e
    simp only [List.map_cons, List.nodup_cons] at hd
    by_cases he : h0 = h
    · subst he
      by_cases hgt : fs > s0 <;> simp [insertRes, hgt, hd.1, hd.2]
    · have := ih hd.2
      simp only [insertRes, he, if_false, List.map_cons, List.nodup_cons]
      refine ⟨?_, this⟩
      rw [mem_keys_insertRes]
      push_neg
      exact ⟨hd.1, he⟩

theorem mem_insertRes (d : List (Nat × String × Nat)) (h : Nat) (fid : String)
    (fs : Nat) (e : Nat × String × Nat) (he : e ∈ insertRes d h fid fs) :
    e ∈ d ∨ e = (h, fid, fs) := by
  induction d with
  | nil => simpa [insertRes] using he
  | cons e0 rest ih =>
    obtain ⟨h0, f0, s0⟩ := e0
    by_cases heq : h0 = h
    · subst heq
      by_cases hgt : fs > s0
      · simp only [insertRes, hgt, if_true, if_pos rfl, List.mem_cons] at he
        rcases he with rfl | he
        · exact Or.inr rfl
        · exact Or.inl (List.mem_cons_of_mem _ he)
      · simp only [insertRes, hgt, if_false, if_pos rfl] at he
        exact Or.inl he
    · simp only [insertRes, heq, if_false, List.mem_cons] at he
      rcases he with rfl | he
      · exact Or.inl (List.mem_cons_self _ _)
      · rcases ih he with hm | hm
        · exact Or.inl (List.mem_cons_of_mem _ hm)
        · exact Or.inr hm

theorem lookupRes_of_mem (d : List (Nat × String × Nat)) :
    (d.map (·.1)).Nodup → ∀ (h : Nat) (fid : String) (fs : Nat),
    (h, fid, fs) ∈ d → lookupRes d h = some (fid, fs) := by
  induction d with
  | nil => intro _ h fid fs hm; simp at hm
  | cons e rest ih =>
    intro hd h fid fs hm
    obtain ⟨h0, f0, s0⟩ := e
    simp only [List.map_cons, List.nodup_cons] at hd
    rcases List.mem_cons.mp hm with heq | hm'
    · cases heq
      simp [lookupRes]
    · have hne : h0 ≠ h := by
        intro hc
        subst hc
        exact hd.1 (List.mem_map.mpr ⟨(h0, fid, fs), hm', rfl⟩)
      simp only [lookupRes, if_neg hne]
      exact ih hd.2 h fid fs hm'

theorem mem_of_lookupRes (d : List (Nat × String × Nat)) :
    ∀ (h : Nat) (fid : String) (fs : Nat),
    lookupRes d h = some (fid, fs) → (h, fid, fs) ∈ d := by
  induction d with
  | nil => intro h fid fs hl; simp [lookupRes] at hl
  | cons e rest ih =>
    intro h fid fs hl
    obtain ⟨h0, f0, s0⟩ := e
    by_cases he : h0 = h
    · subst he
      have h2 : (f0, s0) = (fid, fs) := Option.some.inj (by simpa [lookupRes] using hl)
      cases h2
      exact List.mem_cons_self _ _
    · simp only [lookupRes, if_neg he] at hl
      exact List.mem_cons_of_mem _ (ih h fid fs hl)

/-! ## Fold invariants of `resolution_dict` -/

theorem resStep_eq_insert (d : List (Nat × String × Nat)) (w : Variant) (h : Nat)
    (hel : videoEligible w = true) (hh : w.height = some h) (h0 : h ≠ 0) :
    resStep d w = insertRes d h w.format_id (w.filesize.getD 0) := by
  unfold resStep
  rw [if_pos hel, hh]
  simp [h0]

theorem resStep_skip_not_eligible (d : List (Nat × String × Nat)) (w : Variant)
    (hel : ¬ videoEligible w = true) : resStep d w = d := by
  unfold resStep
  rw [if_neg hel]

theorem resStep_skip_no_height (d : List (Nat × String × Nat)) (w : Variant)
    (hel : videoEligible w = true) (hh : w.height = none) : resStep d w = d := by
  unfold resStep
  rw [if_pos hel, hh]

theorem resStep_skip_zero_height (d : List (Nat × String × Nat)) (w : Variant)
    (hel : videoEligible w = true) (hh : w.height = some 0) : resStep d w = d := by
  unfold resStep
  rw [if_pos hel, hh]
  simp

theorem lookupRes_resStep_grow (d : List (Nat × String × Nat)) (w : Variant)
    (h : Nat) (f0 : String) (s0 : Nat) (hl : lookupRes d h = some (f0, s0)) :
    ∃ f1 s1, lookupRes (resStep d w) h = some (f1, s1) ∧ s0 ≤ s1 := by
  by_cases hel : videoEligible w = true
  · cases hh : w.height with
    | none => rw [resStep_skip_no_height d w hel hh]; exact ⟨f0, s0, hl, le_rfl⟩
    | some hv =>
      by_cases h0 : hv ≠ 0
      · rw [resStep_eq_insert d w hv hel hh h0]
        by_cases heq : hv = h
        · subst heq
          rw [lookupRes_insert_self, hl]
          by_cases hgt : w.filesize.getD 0 > s0
          · exact ⟨w.format_id, w.filesize.getD 0, by simp [hgt], le_of_lt hgt⟩
          · exact ⟨f0, s0, by simp [hgt], le_rfl⟩
        · rw [lookupRes_insert_other _ _ _ _ _ fun hc => heq hc.symm]
          exact ⟨f0, s0, hl, le_rfl⟩
      · push_neg at h0
        subst h0
        rw [resStep_skip_zero_height d w hel hh]
        exact ⟨f0, s0, hl, le_rfl⟩
  · rw [resStep_skip_not_eligible d w hel]
    exact ⟨f0, s0, hl, le_rfl⟩

theorem foldl_resStep_grow (catalog : List Variant) :
    ∀ (d : List (Nat × String × Nat)) (h : Nat) (f0 : String) (s0 : Nat),
    lookupRes d h = some (f0, s0) →
    ∃ f1 s1, lookupRes (catalog.foldl resStep d) h = some (f1, s1) ∧ s0 ≤ s1 := by
  induction catalog with
  | nil => exact fun d h f0 s0 hl => ⟨f0, s0, hl, le_rfl⟩
  | cons w cat ih =>
    intro d h f0 s0 hl
    obtain ⟨f1, s1, hstep, hle⟩ := lookupRes_resStep_grow d w h f0 s0 hl
    obtain ⟨f2, s2, hfin, hle2⟩ := ih (resStep d w) h f1 s1 hstep
    exact ⟨f2, s2, by simpa using hfin, le_trans hle hle2⟩

theorem resStep_self_bound (d : List (Nat × String × Nat)) (w : Variant) (h : Nat)
    (hel : videoEligible w = true) (hh : w.height = some h) (h0 : h ≠ 0) :
    ∃ f1 s1, lookupRes (resStep d w) h = some (f1, s1) ∧ w.filesize.getD 0 ≤ s1 := by
  rw [resStep_eq_insert d w h hel hh h0, lookupRes_insert_self]
  cases hl : lookupRes d h with
  | none => exact ⟨w.format_id, w.filesize.getD 0, by simp, le_rfl⟩
  | some p =>
    obtain ⟨f0, s0⟩ := p
    by_cases hgt : w.filesize.getD 0 > s0
    · exact ⟨w.format_id, w.filesize.getD 0, by simp [hgt], le_rfl⟩
    · exact ⟨f0, s0, by simp [hgt], by omega⟩

theorem foldl_resStep_bound (catalog : List Variant) :
    ∀ (d : List (Nat × String × Nat)) (h : Nat) (fid : String) (fs : Nat),
    h ≠ 0 →
    lookupRes (catalog.foldl resStep d) h = some (fid, fs) →
    ∀ v ∈ catalog, videoEligible v = true → v.height = some h →
      v.filesize.getD 0 ≤ fs := by
  induction catalog with
  | nil => intro d h fid fs _ _ v hv; simp at hv
  | cons w cat ih =>
    intro d h fid fs h0 hl v hv hel hh
    rcases List.mem_cons.mp hv with rfl | hv'
    · obtain ⟨f1, s1, hstep, hge⟩ := resStep_self_bound d v h hel hh h0
      obtain ⟨f2, s2, hfin, hle2⟩ := foldl_resStep_grow cat (resStep d v) h f1 s1 hstep
      have : lookupRes (List.foldl resStep d (v :: cat)) h = some (f2, s2) := by
        simpa using hfin
      rw [hl] at this
      have hfs : fid = f2 ∧ fs = s2 := by simpa [Prod.ext_iff] using this
      obtain ⟨-, hfs⟩ := hfs
      omega
    · exact ih (resStep d w) h fid fs h0 (by simpa using hl) v hv' hel hh

theorem foldl_resStep_exists (catalog : List Variant) :
    ∀ (d : List (Nat × String × Nat)) (v : Variant), v ∈ catalog →
    videoEligible v = true → ∀ h, v.height = some h → h ≠ 0 →
    ∃ f1 s1, lookupRes (catalog.foldl resStep d) h = some (f1, s1) ∧
      v.filesize.getD 0 ≤ s1 := by
  induction catalog with
  | nil => intro d v hv; simp at hv
  | cons w cat ih =>
    intro d v hv hel h hh h0
    rcases List.mem_cons.mp hv with rfl | hv'
    · obtain ⟨f1, s1, hstep, hge⟩ := resStep_self_bound d v h hel hh h0
      obtain ⟨f2, s2, hfin, hle2⟩ := foldl_resStep_grow cat (resStep d v) h f1 s1 hstep
      exact ⟨f2, s2, by simpa using hfin, by omega⟩
    · obtain ⟨f2, s2, hfin, hle⟩ := ih (resStep d w) v hv' hel h hh h0
      exact ⟨f2, s2, by simpa using hfin, hle⟩

theorem foldl_resStep_origin (catalog : List Variant) :
    ∀ (d : List (Nat × String × Nat)) (e : Nat × String × Nat),
    e ∈ catalog.foldl resStep d →
    e ∈ d ∨ ∃ v ∈ catalog, videoEligible v = true ∧ v.height = some e.1 ∧
      e.1 ≠ 0 ∧ e.2.1 = v.format_id ∧ e.2.2 = v.filesize.getD 0 := by
  induction catalog with
  | nil => intro d e he; exact Or.inl (by simpa using he)
  | cons w cat ih =>
    intro d e he
    rcases ih (resStep d w) e (by simpa using he) with hm | ⟨v, hv, hrest⟩
    · by_cases hel : videoEligible w = true
      · cases hh : w.height with
        | none =>
          rw [resStep_skip_no_height d w hel hh] at hm
          exact Or.inl hm
        | some hv =>
          by_cases h0 : hv ≠ 0
          · rw [resStep_eq_insert d w hv hel hh h0] at hm
            rcases mem_insertRes d hv w.format_id (w.filesize.getD 0) e hm with hd | heq
            · exact Or.inl hd
            · subst heq
              exact Or.inr ⟨w, List.mem_cons_self _ _, hel, hh, h0, rfl, rfl⟩
          · push_neg at h0
            subst h0
            rw [resStep_skip_zero_height d w hel hh] at hm
            exact Or.inl hm
      · rw [resStep_skip_not_eligible d w hel] at hm
        exact Or.inl hm
    · exact Or.inr ⟨v, List.mem_cons_of_mem _ hv, hrest⟩

theorem foldl_resStep_nodup (catalog : List Variant) :
    ∀ d : List (Nat × String × Nat),
    (d.map (·.1)).Nodup → ((catalog.foldl resStep d).map (·.1)).Nodup := by
  induction catalog with
  | nil => intro d hd; simpa using hd
  | cons w cat ih =>
    intro d hd
    have hstep : ((resStep d w).map (·.1)).Nodup := by
      by_cases hel : videoEligible w = true
      · cases hh : w.height with
        | none => rw [resStep_skip_no_height d w hel hh]; exact hd
        | some hv =>
          by_cases h0 : hv ≠ 0
          · rw [resStep_eq_insert d w hv hel hh h0]
            exact nodup_keys_insertRes d hv w.format_id (w.filesize.getD 0) hd
          · push_neg at h0
            subst h0
            rw [resStep_skip_zero_height d w hel hh]
            exact hd
      · rw [resStep_skip_not_eligible d w hel]
        exact hd
    simpa using ih (resStep d w) hstep

theorem resolution_dict_nodup_keys (catalog : List Variant) :
    ((resolution_dict catalog).map (·.1)).Nodup :=
  foldl_resStep_nodup catalog [] (by simp)

/-! ## Sorted menu lemmas -/

theorem sortedRes_perm (catalog : List Variant) :
    List.Perm (sortedRes catalog) (resolution_dict catalog) :=
  List.perm_insertionSort resDesc (resolution_dict catalog)

theorem sortedRes_nodup_keys (catalog : List Variant) :
    ((sortedRes catalog).map (·.1)).Nodup := by
  have hperm := (sortedRes_perm catalog).map (·.1)
  exact hperm.nodup_iff.mpr (resolution_dict_nodup_keys catalog)

theorem strictDesc_of_pairwise :
    ∀ l : List Nat, l.Pairwise (fun a b => b < a) → strictDesc l = true := by
  intro l
  induction l with
  | nil => intro _; rfl
  | cons a t ih =>
    intro hp
    cases t with
    | nil => rfl
    | cons b r =>
      rw [List.pairwise_cons] at hp
      have hba : b < a := hp.1 b (List.mem_cons_self _ _)
      have ht := ih hp.2
      simp [strictDesc, hba, ht]

theorem sortedRes_keys_strictDesc (catalog : List Variant) :
    strictDesc ((sortedRes catalog).map (·.1)) = true := by
  apply strictDesc_of_pairwise
  rw [List.pairwise_map]
  have hsorted : (sortedRes catalog).Pairwise resDesc :=
    List.sorted_insertionSort resDesc (resolution_dict catalog)
  have hne : (sortedRes catalog).Pairwise fun a b => a.1 ≠ b.1 := by
    have := sortedRes_nodup_keys catalog
    rw [List.Nodup, List.pairwise_map] at this
    exact this
  exact (hsorted.and hne).imp fun hab =>
    Nat.lt_of_le_of_ne hab.1 fun hc => hab.2 hc.symm

theorem videoAudio_mem_of_dict (catalog : List Variant) (h : Nat) (fid : String)
    (fs : Nat) (hm : (h, fid, fs) ∈ resolution_dict catalog) :
    MenuEntry.videoAudio h fid ∈ get_formats catalog := by
  have hmem : (h, fid, fs) ∈ sortedRes catalog :=
    (sortedRes_perm catalog).mem_iff.mpr hm
  unfold get_formats
  refine List.mem_cons_of_mem _ (List.mem_append_left _ (List.mem_append_left _ ?_))
  exact List.mem_map.mpr ⟨(h, fid, fs), hmem, rfl⟩

theorem videoAudio_mem_dict (catalog : List Variant) (h : Nat) (fid : String)
    (hmem : MenuEntry.videoAudio h fid ∈ get_formats catalog) :
    ∃ fs, lookupRes (resolution_dict catalog) h = some (fid, fs) := by
  unfold get_formats at hmem
  rcases List.mem_cons.mp hmem with hc | hmem
  · exact absurd hc (by simp)
  rcases List.mem_append.mp hmem with hmem | hc
  rcases List.mem_append.mp hmem with hmem | hmem
  · obtain ⟨e, he, heq⟩ := List.mem_map.mp hmem
    obtain ⟨h1, f1, s1⟩ := e
    simp only [MenuEntry.videoAudio.injEq] at heq
    obtain ⟨rfl, rfl⟩ := heq
    refine ⟨s1, lookupRes_of_mem _ (resolution_dict_nodup_keys catalog) _ _ _ ?_⟩
    exact (sortedRes_perm catalog).mem_iff.mp he
  · obtain ⟨e, _, heq⟩ := List.mem_map.mp hmem
    exact absurd heq (by simp)
  · exact absurd hc (by simp)

/-! ## Claims about the Format Resolver -/

/-- C1 counterexample: for the catalog with a 1080p and a 720p variant
the menu's non-synthetic resolution rows carry the heights
`1080, 720, 1080, 720` (Video + Audio section followed by Video Only
section), which is not strictly descending; the synthetic best entry is
still first. -/
theorem claim_c1_counterexample :
    get_formats catTwoRes =
      [MenuEntry.bestCombined, MenuEntry.videoAudio 1080 "137",
       MenuEntry.videoAudio 720 "136", MenuEntry.videoOnly 1080 "137",
       MenuEntry.videoOnly 720 "136", MenuEntry.audioOnly] ∧
    (get_formats catTwoRes).head? = some MenuEntry.bestCombined ∧
    strictDesc (List.filterMap entryHeight (get_formats catTwoRes)) = false := by
  refine ⟨by decide, by decide, by decide⟩

/-- C1 amended: for every catalog the menu is non-empty and starts with
the synthetic best entry, whose selector resolves to the engine-native
best-combined expression independently of the catalog; the remaining
rows are a Video + Audio section in strictly descending resolution
order, a Video Only section repeating the same resolutions in the same
strictly descending order, and one final Audio Only entry — so the
resolution rows are strictly descending within each section, but not
globally across the two sections. -/
theorem claim_c1_menu_shape (catalog : List Variant) :
    get_formats catalog ≠ [] ∧
    (get_formats catalog).head? = some MenuEntry.bestCombined ∧
    format_spec (entryData MenuEntry.bestCombined) =
      "bestvideo[ext=mp4]+bestaudio[ext=mp4]/best[ext=mp4]" ∧
    ∃ s : List (Nat × String × Nat),
      get_formats catalog =
        MenuEntry.bestCombined ::
          (s.map (fun e => MenuEntry.videoAudio e.1 e.2.1) ++
            s.map (fun e => MenuEntry.videoOnly e.1 e.2.1) ++
            [MenuEntry.audioOnly]) ∧
      strictDesc (s.map (·.1)) = true :=
  ⟨by simp [get_formats], by simp [get_formats], by decide,
    sortedRes catalog, rfl, sortedRes_keys_strictDesc catalog⟩

/-- C2: the resolver groups the video-capable mp4 entries by height
(entries with an absent — or `0`, falsy in Python — height are
discarded: every key of the table originates from an eligible entry with
that positive height), and within a height group it keeps the largest
known file size (absent size counting as 0).  In particular, given two
video-capable entries at the same height with different sizes, the kept
entry's size is at least the larger and strictly above the smaller — so
the smaller-size entry never survives — and the menu carries exactly one
Video + Audio row for that height, the one from the table. -/
theorem claim_c2_size_dedup (catalog : List Variant) (v1 v2 : Variant) (h : Nat)
    (hm1 : v1 ∈ catalog) (hm2 : v2 ∈ catalog)
    (he1 : videoEligible v1 = true) (he2 : videoEligible v2 = true)
    (hh1 : v1.height = some h) (hh2 : v2.height = some h) (h0 : h ≠ 0)
    (hlt : v2.filesize.getD 0 < v1.filesize.getD 0) :
    ∃ fid fs, lookupRes (resolution_dict catalog) h = some (fid, fs) ∧
      v1.filesize.getD 0 ≤ fs ∧ v2.filesize.getD 0 < fs ∧
      MenuEntry.videoAudio h fid ∈ get_formats catalog ∧
      (∀ fid2, MenuEntry.videoAudio h fid2 ∈ get_formats catalog → fid2 = fid) ∧
      (∀ h2 e2, lookupRes (resolution_dict catalog) h2 = some e2 →
        ∃ v ∈ catalog, videoEligible v = true ∧ v.height = some h2 ∧ h2 ≠ 0 ∧
          e2.1 = v.format_id ∧ e2.2 = v.filesize.getD 0) := by
  obtain ⟨f1, s1, hl, hge⟩ :=
    foldl_resStep_exists catalog [] v1 hm1 he1 h hh1 h0
  have hl' : lookupRes (resolution_dict catalog) h = some (f1, s1) := hl
  refine ⟨f1, s1, hl', hge, by omega, ?_, ?_, ?_⟩
  · exact videoAudio_mem_of_dict catalog h f1 s1
      (mem_of_lookupRes _ _ _ _ hl')
  · intro fid2 hmem
    obtain ⟨fs2, hl2⟩ := videoAudio_mem_dict catalog h fid2 hmem
    rw [hl'] at hl2
    have h3 : f1 = fid2 ∧ s1 = fs2 := by simpa [Prod.ext_iff] using hl2
    exact h3.1.symm
  · intro h2 e2 hl2
    have hm := mem_of_lookupRes _ h2 e2.1 e2.2 (by simpa using hl2)
    rcases foldl_resStep_origin catalog [] (h2, e2.1, e2.2) hm with hc | ⟨v, hv, hrest⟩
    · simp at hc
    · exact ⟨v, hv, hrest.1, hrest.2.1, hrest.2.2.1, hrest.2.2.2⟩

/-! ## String occurrence and replacement lemmas -/

theorem isPre_self_append (p t : List Char) : isPre p (p ++ t) = true := by
  induction p with
  | nil => rfl
  | cons c cs ih => simp [isPre, ih]

theorem hasOccur_of_isPre (pat s : List Char) (h : isPre pat s = true) :
    hasOccur pat s = true := by
  cases s with
  | nil => simpa [hasOccur] using h
  | cons c rest => simp [hasOccur, h]

theorem hasOccur_append_right (pat a b : List Char) (h : hasOccur pat b = true) :
    hasOccur pat (a ++ b) = true := by
  induction a with
  | nil => simpa using h
  | cons c rest ih => simp [hasOccur, ih]

theorem hasOccur_false_head (pat : List Char) (c : Char) (rest : List Char)
    (h : hasOccur pat (c :: rest) = false) :
    isPre pat (c :: rest) = false ∧ hasOccur pat rest = false := by
  simpa [hasOccur, Bool.or_eq_false_iff] using h

theorem replAux_no_occur (pat : List Char) :
    ∀ s, hasOccur pat s = false → replAux pat s.length s = s := by
  intro s
  induction s with
  | nil => intro _; rfl
  | cons c rest ih =>
    intro h
    obtain ⟨hpre, hrest⟩ := hasOccur_false_head pat c rest h
    have hcond : ¬(pat ≠ [] ∧ isPre pat (c :: rest) = true) := by
      rintro ⟨-, hp⟩
      rw [hpre] at hp
      exact Bool.false_ne_true hp
    show replAux pat (rest.length + 1) (c :: rest) = c :: rest
    simp only [replAux, if_neg hcond]
    rw [ih hrest]

/-- Python `s.replace(pat, "")` is the identity when `pat` does not occur. -/
theorem strReplace_no_occur (s pat : String) (h : strContains s pat = false) :
    strReplace s pat = s := by
  unfold strReplace listReplace
  rw [replAux_no_occur pat.data s.data h]

theorem listReplace_append_pat (pat : List Char) (hp : pat ≠ []) :
    ∀ a : List Char,
    (∀ i, i < a.length → isPre pat ((a ++ pat).drop i) = false) →
    listReplace pat (a ++ pat) = a := by
  intro a
  induction a with
  | nil =>
    intro _
    obtain ⟨q, qs, rfl⟩ : ∃ q qs, pat = q :: qs := by
      cases pat with
      | nil => exact absurd rfl hp
      | cons q qs => exact ⟨q, qs, rfl⟩
    simp only [List.nil_append]
    unfold listReplace
    simp only [List.length_cons]
    have hcond : (q :: qs) ≠ [] ∧ isPre (q :: qs) (q :: qs) = true := by
      refine ⟨by simp, ?_⟩
      simpa using isPre_self_append (q :: qs) []
    simp only [replAux, if_pos hcond]
    rw [List.drop_length]
    cases qs <;> rfl
  | cons c a' ih =>
    intro hyp
    have h0 : isPre pat (c :: (a' ++ pat)) = false := by
      have h2 := hyp 0 (by simp)
      simpa using h2
    have hcond : ¬(pat ≠ [] ∧ isPre pat (c :: (a' ++ pat)) = true) := by
      rintro ⟨-, hp2⟩
      rw [h0] at hp2
      exact Bool.false_ne_true hp2
    show replAux pat ((c :: a') ++ pat).length ((c :: a') ++ pat) = c :: a'
    simp only [List.cons_append, List.length_cons]
    simp only [replAux, if_neg hcond]
    have hrec := ih fun i hi => by
      have h2 := hyp (i + 1) (by simpa using Nat.succ_lt_succ hi)
      simpa [List.drop_succ_cons] using h2
    rw [show replAux pat (a' ++ pat).length (a' ++ pat) = listReplace pat (a' ++ pat)
      from rfl, hrec]

/-- Python `(fid + pat).replace(pat, "") = fid` when the only occurrence
of `pat` is the final one. -/
theorem strReplace_suffix (fid pat : String) (hp : pat.data ≠ [])
    (hyp : ∀ i, i < fid.data.length →
      isPre pat.data ((fid.data ++ pat.data).drop i) = false) :
    strReplace (fid ++ pat) pat = fid := by
  unfold strReplace
  rw [String.data_append, listReplace_append_pat pat.data hp fid.data hyp]

/-! ## Claims about the selector construction (Format Resolver + worker) -/

/-- C3 counterexample: the resolver never selects a catalog-derived
fallback audio and never tests whether an entry carries audio.  In the
catalog `[v137, a140]` (audio-less 1080p video plus an audio-only entry
with identifier 140) the 1080p row's selector is
`137+bestaudio[ext=mp4]/best[ext=mp4]`, not the claimed concatenation
`137+140`; and in the catalog `[v22]`, whose only row already carries
audio, the selector is not the bare identifier `22`. -/
theorem claim_c3_counterexample :
    get_formats catC3 =
      [MenuEntry.bestCombined, MenuEntry.videoAudio 1080 "137",
       MenuEntry.videoOnly 1080 "137", MenuEntry.audioOnly] ∧
    carriesAudio a140 = true ∧ videoEligible a140 = false ∧
    format_spec (entryData (MenuEntry.videoAudio 1080 "137")) =
      "137+bestaudio[ext=mp4]/best[ext=mp4]" ∧
    format_spec (entryData (MenuEntry.videoAudio 1080 "137")) ≠ "137+140" ∧
    carriesAudio v22 = true ∧
    get_formats [v22] =
      [MenuEntry.bestCombined, MenuEntry.videoAudio 720 "22",
       MenuEntry.videoOnly 720 "22", MenuEntry.audioOnly] ∧
    format_spec (entryData (MenuEntry.videoAudio 720 "22")) ≠ "22" := by
  refine ⟨by decide, by decide, by decide, by decide, by decide, by decide,
    by decide, by decide⟩

/-- C3 amended: no fallback audio is computed from the catalog and audio
presence is never consulted.  For an identifier `fid` free of the
reserved substrings, the engine receives
`fid+bestaudio[ext=mp4]/best[ext=mp4]` for the Video + Audio row
(regardless of whether that variant carries audio),
the bare `fid` for the Video Only row, the fixed
`bestaudio[ext=mp4]/bestaudio` for the Audio Only row, and the fixed
best-combined expression for the synthetic best row. -/
theorem claim_c3_selector_shapes (fid : String)
    (h1 : hasOccur "audio_only".data fid.data = false)
    (h2 : hasOccur "video_only".data fid.data = false)
    (h3 : hasOccur "_video_only".data fid.data = false)
    (h4 : hasOccur "_audio_only".data fid.data = false)
    (h5 : hasOccur "audio_only".data (fid ++ "_video_only").data = false)
    (h6 : ∀ i, i < fid.data.length →
      isPre "_video_only".data ((fid.data ++ "_video_only".data).drop i) = false)
    (h7 : fid ≠ "best") :
    format_spec fid = fid ++ "+bestaudio[ext=mp4]/best[ext=mp4]" ∧
    format_spec (fid ++ "_video_only") = fid ∧
    format_spec "bestaudio_audio_only" = "bestaudio[ext=mp4]/bestaudio" ∧
    format_spec "best" = "bestvideo[ext=mp4]+bestaudio[ext=mp4]/best[ext=mp4]" := by
  refine ⟨?_, ?_, by decide, by decide⟩
  · have e1 : strContains fid "audio_only" = false := h1
    have e2 : strContains fid "video_only" = false := h2
    have hbase : strReplace (strReplace fid "_video_only") "_audio_only" = fid := by
      rw [strReplace_no_occur fid "_video_only" h3]
      exact strReplace_no_occur fid "_audio_only" h4
    simp only [format_spec]
    simp [e1, e2, h7, hbase]
  · have e1 : strContains (fid ++ "_video_only") "audio_only" = false := h5
    have e2 : strContains (fid ++ "_video_only") "video_only" = true := by
      show hasOccur "video_only".data (fid ++ "_video_only").data = true
      rw [String.data_append]
      exact hasOccur_append_right _ _ _ (by decide)
    have hbest : (fid ++ "_video_only") ≠ "best" := by
      intro hc
      have hlen := congrArg (fun s => s.data.length) hc
      simp [String.data_append] at hlen
    have hrepl : strReplace (fid ++ "_video_only") "_video_only" = fid :=
      strReplace_suffix fid "_video_only" (by decide) h6
    have hbase2 :
        strReplace (strReplace (fid ++ "_video_only") "_video_only") "_audio_only" =
          fid := by
      rw [hrepl]
      exact strReplace_no_occur fid "_audio_only" h4
    simp only [format_spec]
    simp [e1, e2, hbest, hbase2]

/-- Witness for `claim_c3_selector_shapes` at the concrete identifier
`137`. -/
theorem claim_c3_selector_shapes_witness :
    (hasOccur "audio_only".data "137".data = false) ∧
    (hasOccur "video_only".data "137".data = false) ∧
    (hasOccur "_video_only".data "137".data = false) ∧
    (hasOccur "_audio_only".data "137".data = false) ∧
    (hasOccur "audio_only".data ("137" ++ "_video_only").data = false) ∧
    (∀ i, i < "137".data.length →
      isPre "_video_only".data (("137".data ++ "_video_only".data).drop i) = false) ∧
    ("137" : String) ≠ "best" ∧
    (format_spec "137" = "137" ++ "+bestaudio[ext=mp4]/best[ext=mp4]" ∧
      format_spec ("137" ++ "_video_only") = "137" ∧
      format_spec "bestaudio_audio_only" = "bestaudio[ext=mp4]/bestaudio" ∧
      format_spec "best" = "bestvideo[ext=mp4]+bestaudio[ext=mp4]/best[ext=mp4]") :=
  ⟨by decide, by decide, by decide, by decide, by decide, by decide, by decide,
    claim_c3_selector_shapes "137" (by decide) (by decide) (by decide) (by decide)
      (by decide) (by decide) (by decide)⟩

/-! ## Split lemmas -/

theorem splitAux_fuel (sep : List Char) :
    ∀ fuel s acc, s.length ≤ fuel →
    splitAux sep fuel s acc = splitAux sep s.length s acc := by
  intro fuel
  induction fuel using Nat.strong_induction_on with
  | _ fuel ih =>
    intro s acc hle
    cases s with
    | nil => cases fuel <;> rfl
    | cons c rest =>
      cases fuel with
      | zero => simp at hle
      | succ f =>
        simp only [List.length_cons] at hle ⊢
        by_cases hcond : sep ≠ [] ∧ isPre sep (c :: rest) = true
        · simp only [splitAux, if_pos hcond]
          have hsep : 0 < sep.length := List.length_pos.mpr hcond.1
          have hlen : ((c :: rest).drop sep.length).length ≤ f := by
            simp only [List.length_drop, List.length_cons]
            omega
          have hlen2 : ((c :: rest).drop sep.length).length ≤ rest.length := by
            simp only [List.length_drop, List.length_cons]
            omega
          rw [ih f (by omega) _ [] hlen, ih rest.length (by omega) _ [] hlen2]
        · simp only [splitAux, if_neg hcond]
          rw [ih f (by omega) rest (c :: acc) (by omega)]

theorem splitAux_no_occur (sep : List Char) :
    ∀ s acc, hasOccur sep s = false →
    splitAux sep s.length s acc = [acc.reverse ++ s] := by
  intro s
  induction s with
  | nil => intro acc _; simp [splitAux]
  | cons c rest ih =>
    intro acc h
    obtain ⟨hpre, hrest⟩ := hasOccur_false_head sep c rest h
    have hcond : ¬(sep ≠ [] ∧ isPre sep (c :: rest) = true) := by
      rintro ⟨-, hp⟩
      rw [hpre] at hp
      exact Bool.false_ne_true hp
    show splitAux sep (rest.length + 1) (c :: rest) acc = [acc.reverse ++ (c :: rest)]
    simp only [splitAux, if_neg hcond]
    rw [ih (c :: acc) hrest]
    simp

theorem splitAux_break (sep : List Char) (hp : sep ≠ []) :
    ∀ a b acc, (∀ i, i < a.length → isPre sep ((a ++ sep ++ b).drop i) = false) →
    splitAux sep (a ++ sep ++ b).length (a ++ sep ++ b) acc =
      (acc.reverse ++ a) :: listSplit b sep := by
  intro a
  induction a with
  | nil =>
    intro b acc _
    obtain ⟨q, qs, rfl⟩ : ∃ q qs, sep = q :: qs := by
      cases sep with
      | nil => exact absurd rfl hp
      | cons q qs => exact ⟨q, qs, rfl⟩
    simp only [List.nil_append, List.cons_append, List.length_cons]
    have hcond : (q :: qs) ≠ [] ∧ isPre (q :: qs) (q :: (qs ++ b)) = true := by
      refine ⟨by simp, ?_⟩
      simpa using isPre_self_append (q :: qs) b
    simp only [splitAux, if_pos hcond]
    have hdrop : (q :: (qs ++ b)).drop (q :: qs).length = b := by
      show ((q :: qs) ++ b).drop (q :: qs).length = b
      simp
    rw [hdrop]
    rw [splitAux_fuel (q :: qs) (qs ++ b).length b []
      (by simp only [List.length_append]; omega)]
    simp [listSplit]
  | cons c a' ih =>
    intro b acc hyp
    have h0 : isPre sep (c :: (a' ++ sep ++ b)) = false := by
      have h2 := hyp 0 (by simp)
      simpa using h2
    have hcond : ¬(sep ≠ [] ∧ isPre sep (c :: (a' ++ sep ++ b)) = true) := by
      rintro ⟨-, hp2⟩
      rw [h0] at hp2
      exact Bool.false_ne_true hp2
    simp only [List.cons_append, List.length_cons]
    simp only [splitAux, if_neg hcond]
    rw [ih b (c :: acc) fun i hi => by
      have h2 := hyp (i + 1) (by simpa using Nat.succ_lt_succ hi)
      simpa [List.drop_succ_cons] using h2]
    simp

/-- Python `s.split(sep)` on a string without an occurrence of `sep`. -/
theorem pySplit_no_occur (s sep : String) (h : strContains s sep = false) :
    pySplit s sep = [s] := by
  unfold pySplit listSplit
  rw [splitAux_no_occur sep.data s.data [] h]
  rfl

/-- Python `s.split(sep)` splits off the chunk before the first
occurrence of `sep`. -/
theorem pySplit_break (s a sep b : String)
    (hd : s.data = a.data ++ sep.data ++ b.data) (hp : sep.data ≠ [])
    (hyp : ∀ i, i < a.data.length →
      isPre sep.data ((a.data ++ sep.data ++ b.data).drop i) = false) :
    pySplit s sep = a :: pySplit b sep := by
  unfold pySplit listSplit
  rw [hd, splitAux_break sep.data hp a.data b.data [] hyp]
  rfl

/-! ## Claims about progress aggregation -/

/-- C8 counterexample: the raw sample `150.0%` is forwarded to the
progress bar as 150, outside the claimed inclusive range [0, 100] — the
handler applies no clamping. -/
theorem claim_c8_counterexample :
    update_progress msg150 = ProgAction.setBar 150 msg150 ∧
    ¬ ((150 : Int) ≤ 100) := by
  refine ⟨by decide, by decide⟩

/-- C8 amended: the percent value forwarded to the progress display is
the integer truncation of the parsed percent field, with no clamping
(so it lies in [0, 100] only when the sample does; the display widget's
own 0–100 range is the only limit); a malformed or unparseable percent
field only produces a log entry — the error is swallowed, never
propagated, so one bad sample cannot terminate a download. -/
theorem claim_c8_progress_forwarding (pct speed eta : String)
    (hsep : ∀ i, i < ("Downloading: " ++ pct).data.length →
      isPre " - ".data
        ((("Downloading: " ++ pct).data ++ " - ".data ++
          ("Speed: " ++ speed ++ " - ETA: " ++ eta).data).drop i) = false)
    (hcolon : hasOccur ": ".data pct.data = false) :
    (∀ p : Int, pyFloatInt (stripPct pct) = some p →
      update_progress (hookMsg pct speed eta) =
        ProgAction.setBar p (hookMsg pct speed eta)) ∧
    (pyFloatInt (stripPct pct) = none →
      update_progress (hookMsg pct speed eta) =
        ProgAction.logOnly
          ("Error parsing percentage " ++ stripPct pct ++
            ": could not convert string to float")) := by
  have hdata : (hookMsg pct speed eta).data =
      ("Downloading: " ++ pct).data ++ " - ".data ++
        ("Speed: " ++ speed ++ " - ETA: " ++ eta).data := by
    simp [hookMsg, String.data_append]
  have hcontains : strContains (hookMsg pct speed eta) "Downloading:" = true := by
    show hasOccur "Downloading:".data (hookMsg pct speed eta).data = true
    apply hasOccur_of_isPre
    have hdata2 : (hookMsg pct speed eta).data =
        "Downloading:".data ++
          (' ' :: (pct.data ++ (" - Speed: " ++ speed ++ " - ETA: " ++ eta).data)) := by
      simp [hookMsg, String.data_append]
    rw [hdata2]
    exact isPre_self_append _ _
  have hsplit1 : pySplit (hookMsg pct speed eta) " - " =
      ("Downloading: " ++ pct) ::
        pySplit ("Speed: " ++ speed ++ " - ETA: " ++ eta) " - " :=
    pySplit_break _ _ _ _ hdata (by decide) hsep
  have hd2 : ("Downloading: " ++ pct).data =
      "Downloading".data ++ ": ".data ++ pct.data := by
    simp [String.data_append]
  have hyp2 : ∀ i, i < "Downloading".data.length →
      isPre ": ".data (("Downloading".data ++ ": ".data ++ pct.data).drop i) = false := by
    intro i hi
    have hlen : ("Downloading".data.length) = 11 := rfl
    rw [hlen] at hi
    interval_cases i <;> rfl
  have hsplit2 : pySplit ("Downloading: " ++ pct) ": " = ["Downloading", pct] := by
    rw [pySplit_break _ _ _ _ hd2 (by decide) hyp2,
      pySplit_no_occur pct ": " hcolon]
  constructor
  · intro p hp
    simp [update_progress, hcontains, hsplit1, hsplit2, hp]
  · intro hp
    simp [update_progress, hcontains, hsplit1, hsplit2, hp]

/-- Witness for `claim_c8_progress_forwarding` at the in-range sample
`42.7%`, forwarded as 42. -/
theorem claim_c8_progress_forwarding_witness :
    (∀ i, i < ("Downloading: " ++ "42.7%").data.length →
      isPre " - ".data
        ((("Downloading: " ++ "42.7%").data ++ " - ".data ++
          ("Speed: " ++ "1.0MiB/s" ++ " - ETA: " ++ "00:10").data).drop i) = false) ∧
    hasOccur ": ".data "42.7%".data = false ∧
    update_progress (hookMsg "42.7%" "1.0MiB/s" "00:10") =
      ProgAction.setBar 42 (hookMsg "42.7%" "1.0MiB/s" "00:10") :=
  ⟨by decide, by decide,
    (claim_c8_progress_forwarding "42.7%" "1.0MiB/s" "00:10" (by decide)
      (by decide)).1 42 (by decide)⟩

/-- Witness for `claim_c2_size_dedup`: in the catalog with two 1080p
encodings (500 and 300 bytes) only the 500-byte one survives. -/
theorem claim_c2_size_dedup_witness :
    v137 ∈ catDup ∧ v137b ∈ catDup ∧ videoEligible v137 = true ∧
    videoEligible v137b = true ∧ v137.height = some 1080 ∧
    v137b.height = some 1080 ∧ (1080 : Nat) ≠ 0 ∧
    v137b.filesize.getD 0 < v137.filesize.getD 0 ∧
    (∃ fid fs, lookupRes (resolution_dict catDup) 1080 = some (fid, fs) ∧
      v137.filesize.getD 0 ≤ fs ∧ v137b.filesize.getD 0 < fs ∧
      MenuEntry.videoAudio 1080 fid ∈ get_formats catDup ∧
      (∀ fid2, MenuEntry.videoAudio 1080 fid2 ∈ get_formats catDup → fid2 = fid) ∧
      (∀ h2 e2, lookupRes (resolution_dict catDup) h2 = some e2 →
        ∃ v ∈ catDup, videoEligible v = true ∧ v.height = some h2 ∧ h2 ≠ 0 ∧
          e2.1 = v.format_id ∧ e2.2 = v.filesize.getD 0)) :=
  ⟨by decide, by decide, by decide, by decide, by decide, by decide, by decide,
    by decide,
    claim_c2_size_dedup catDup v137 v137b 1080 (by decide) (by decide) (by decide)
      (by decide) (by decide) (by decide) (by decide) (by decide)⟩

end Ytdl
